import Mathlib

/-!
Shallow embedding of `timetable_csp.py`, a greedy course-timetabling solver:
the timeslot-overlap index built in `preprocess`, the candidate-domain
construction `build_vars_domains`, and the greedy assignment engine
`solve_timetable`, together with proofs of the specification claims.

Modelling conventions:
- Python strings that undergo lowercasing / substring tests are `List Char`;
  identifier strings that are only compared for equality are `String`.
- Python integers are `Int`.
- Python dicts keyed by identifier are association lists (`List (String × _)`)
  read through `dlookup` (first match, like a dict with unique keys), or,
  for the overlap map whose reads always use a default, total functions
  `String → List String` with default `[]`.
- Python sets of timeslot ids are `List String`; only membership matters.
- `ROOM_CAPACITY_RELAX` is `0.0` in the source, so the branch
  `if ROOM_CAPACITY_RELAX > 0` is dead and the required minimum capacity is
  exactly the student count; the embedding fixes that default.
- `ALLOW_FALLBACK` is a module-level constant in the source; it is passed as
  an explicit parameter `allow_fallback` here so both values can be studied.
-/

/-- Lowercasing of a Python string (`str.lower`), character by character. -/
def lowerStr (s : List Char) : List Char := s.map Char.toLower

/-- Prefix test on character lists, used to implement Python substring tests. -/
def startsWith : List Char → List Char → Bool
  | [], _ => true
  | _ :: _, [] => false
  | a :: as, b :: bs => a == b && startsWith as bs

/-- Python substring containment `needle in hay` on strings. -/
def containsStr (n : List Char) : List Char → Bool
  | [] => n.isEmpty
  | c :: t => startsWith n (c :: t) || containsStr n t

/-- One timeslot record of `timeslot_info` built by `preprocess`:
day label, start/end minute, duration, normalized slot-type tag. -/
structure SlotInfo where
  day : List Char
  start_min : Int
  end_min : Int
  duration : Int
  slot_type : List Char
  deriving DecidableEq, Repr

/-- One instructor record of the `instructors` dict built by `preprocess`:
display name, set of qualified course ids, lowercased role tag. -/
structure InstrInfo where
  name : List Char
  quals : List String
  role : List Char
  deriving DecidableEq, Repr

/-- One room record of the `rooms` dict built by `preprocess`:
lowercased room-type tag and integer capacity. -/
structure RoomInfo where
  rtype : List Char
  capacity : Int
  deriving DecidableEq, Repr

/-- One session entry prepared from `LectureMapping`:
section id, course id, session type, student count of the section. -/
structure Session where
  sect : String
  course : String
  session_type : List Char
  students : Int
  deriving DecidableEq, Repr

/-- The `LectureVar` scheduling variable: course, section, session type and
student count (the derived `name` string is omitted, it is print-only). -/
structure LectureVar where
  course : String
  sect : String
  session_type : List Char
  students : Int
  deriving DecidableEq, Repr

/-- One domain candidate, the tuple
`(timeslot, room_id, instructor_id, is_qualified, pref_flag)`
appended in `build_vars_domains`. -/
structure Cand where
  slot : String
  room : String
  instr : String
  qual : Bool
  pref : Bool
  deriving DecidableEq, Repr

/-- Dict lookup on an association list (first matching key, like a Python
dict with unique keys); `none` models a missing key. -/
def dlookup (l : List (String × α)) (k : String) : Option α :=
  (l.find? (fun p => p.1 == k)).map Prod.snd

/-- Pointwise insertion into an id-to-slot-list map, modelling
`some_map[key].add(value)` on a dict of sets. -/
def addTo (m : String → List String) (k v : String) : String → List String :=
  fun x => if x = k then v :: m x else m x

/-- Symmetric insertion `overlap_map[a].add(b); overlap_map[b].add(a)`. -/
def insert2 (m : String → List String) (a b : String) : String → List String :=
  addTo (addTo m a b) b a

/-- The pairwise overlap test of `preprocess`: both day labels truthy
(nonempty), equal case-insensitively, and the half-open minute ranges
intersect (`a.start < b.end and b.start < a.end`). -/
def overlapCond (a b : SlotInfo) : Bool :=
  (!a.day.isEmpty) && (!b.day.isEmpty) && (lowerStr a.day == lowerStr b.day)
    && decide (a.start_min < b.end_min) && decide (b.start_min < a.end_min)

/-- Inner loop of the overlap-map construction: compares slot `a` against
each later slot `b` of the list and inserts symmetrically on success. -/
def overlapInner (info : String → SlotInfo) (a : String) :
    List String → (String → List String) → (String → List String)
  | [], m => m
  | b :: bs, m =>
      overlapInner info a bs (if overlapCond (info a) (info b) then insert2 m a b else m)

/-- Outer loop of the overlap-map construction over `enumerate(timeslots)`:
each slot is compared against the tail that follows it. -/
def overlapOuter (info : String → SlotInfo) :
    List String → (String → List String) → (String → List String)
  | [], m => m
  | a :: rest, m => overlapOuter info rest (overlapInner info a rest m)

/-- The timeslot Overlap Index of `preprocess`: starts from all-empty sets
(`{tid: set() for tid in timeslots}`, extended by the empty default used at
read time) and runs the pairwise loop. `info` is the `timeslot_info` dict. -/
def buildOverlap (timeslots : List String) (info : String → SlotInfo) :
    String → List String :=
  overlapOuter info timeslots (fun _ => [])

/-- `MIN_LECTURE_DURATION = 80`, the long-lecture floor in minutes. -/
def MIN_LECTURE_DURATION : Int := 80

/-- `MAX_TUTORIAL_DURATION = 79`, the short-tutorial ceiling in minutes. -/
def MAX_TUTORIAL_DURATION : Int := 79

/-- `compatible_room_by_session`: room-type compatibility for a session
type, translated branch by branch from the source. -/
def compatible_room_by_session (session_type room_type : List Char) : Bool :=
  if containsStr "lab".toList (lowerStr session_type) then
    if containsStr "lab".toList (lowerStr room_type)
        || containsStr "physics".toList (lowerStr room_type) then true
    else if containsStr "classroom".toList (lowerStr room_type)
        || containsStr "hall".toList (lowerStr room_type)
        || containsStr "theater".toList (lowerStr room_type) then true
    else false
  else if containsStr "lecture".toList (lowerStr session_type)
      || containsStr "tutorial".toList (lowerStr session_type) then
    if containsStr "classroom".toList (lowerStr room_type)
        || containsStr "hall".toList (lowerStr room_type)
        || containsStr "theater".toList (lowerStr room_type) then true
    else if containsStr "lab".toList (lowerStr room_type)
        || containsStr "physics".toList (lowerStr room_type) then true
    else false
  else
    containsStr "classroom".toList (lowerStr room_type)
      || containsStr "hall".toList (lowerStr room_type)
      || containsStr "theater".toList (lowerStr room_type)
      || containsStr "lab".toList (lowerStr room_type)
      || containsStr "physics".toList (lowerStr room_type)

/-- Specification-side definition for claim C7 (refinement target): a room
type is recognized iff its lowercased tag contains one of the five known
tokens. -/
def recognizedRoomType (room_type : List Char) : Bool :=
  containsStr "classroom".toList (lowerStr room_type)
    || containsStr "hall".toList (lowerStr room_type)
    || containsStr "theater".toList (lowerStr room_type)
    || containsStr "lab".toList (lowerStr room_type)
    || containsStr "physics".toList (lowerStr room_type)

/-- The guard `"short tutorial" in st or ("short" in st and "tutorial" in st)`
of `slottype_matches_session` (on the lowercased session type). -/
def isShortTutType (session_type : List Char) : Bool :=
  containsStr "short tutorial".toList (lowerStr session_type)
    || (containsStr "short".toList (lowerStr session_type)
        && containsStr "tutorial".toList (lowerStr session_type))

/-- The guard `"long tutorial" in st or ("long" in st and "tutorial" in st)`
of `slottype_matches_session` (on the lowercased session type). -/
def isLongTutType (session_type : List Char) : Bool :=
  containsStr "long tutorial".toList (lowerStr session_type)
    || (containsStr "long".toList (lowerStr session_type)
        && containsStr "tutorial".toList (lowerStr session_type))

/-- `slottype_matches_session`: slot-type enforcement for tutorials; any
slot is allowed for other session types. -/
def slottype_matches_session (slot_type : List Char) (slot_duration : Int)
    (session_type : List Char) : Bool :=
  if isShortTutType session_type then
    if (!(lowerStr slot_type).isEmpty)
        && containsStr "short".toList (lowerStr slot_type) then true
    else decide (slot_duration ≤ MAX_TUTORIAL_DURATION)
  else if isLongTutType session_type then
    if (!(lowerStr slot_type).isEmpty)
        && containsStr "long".toList (lowerStr slot_type) then true
    else decide (slot_duration ≥ MIN_LECTURE_DURATION)
  else true

/-- The list comprehension computing `qualified_instrs` in
`build_vars_domains`: ids of instructors whose qualification set contains
the course. -/
def qualifiedIds (instructors : List (String × InstrInfo)) (cid : String) :
    List String :=
  (instructors.filter (fun e => decide (cid ∈ e.2.quals))).map Prod.fst

/-- The instructor ids actually iterated over: the qualified ones, replaced
by the full instructor list when empty and the fallback flag is enabled
(`if not qualified_instrs and ALLOW_FALLBACK`). -/
def chosenIds (allow_fallback : Bool) (instructors : List (String × InstrInfo))
    (cid : String) : List String :=
  if (qualifiedIds instructors cid).isEmpty && allow_fallback then
    instructors.map Prod.fst
  else qualifiedIds instructors cid

/-- `prefer_assistant`: true iff the session type mentions lab or tutorial. -/
def preferAssistant (session_type : List Char) : Bool :=
  containsStr "lab".toList (lowerStr session_type)
    || containsStr "tutorial".toList (lowerStr session_type)

/-- `instructors.get(iid, {}).get("quals", set())`. -/
def qualsOf (instructors : List (String × InstrInfo)) (iid : String) :
    List String :=
  ((dlookup instructors iid).map InstrInfo.quals).getD []

/-- `instructors.get(iid, {}).get("role", "professor")`. -/
def roleOf (instructors : List (String × InstrInfo)) (iid : String) :
    List Char :=
  ((dlookup instructors iid).map InstrInfo.role).getD ("professor".toList)

/-- The `pref_flag` of a candidate: prefer-assistant session and the
instructor role mentions assistant, ta, or lab. -/
def prefFlag (instructors : List (String × InstrInfo)) (prefer_assist : Bool)
    (iid : String) : Bool :=
  prefer_assist && (containsStr "assistant".toList (roleOf instructors iid)
    || containsStr "ta".toList (roleOf instructors iid)
    || containsStr "lab".toList (roleOf instructors iid))

/-- The `LectureVar` created for a session that passes the integrity checks. -/
def mkVar (s : Session) : LectureVar :=
  ⟨s.course, s.sect, s.session_type, s.students⟩

/-- The domain list `dom` built for one session: the triple-nested loop over
timeslots, rooms and chosen instructors with the slot-type, room-type and
capacity filters.  With the default `ROOM_CAPACITY_RELAX = 0.0` the minimum
capacity is exactly the student count. -/
def domainFor (allow_fallback : Bool) (instructors : List (String × InstrInfo))
    (rooms : List (String × RoomInfo)) (timeslots : List String)
    (timeslot_info : List (String × SlotInfo)) (s : Session) : List Cand :=
  timeslots.flatMap (fun t =>
    match dlookup timeslot_info t with
    | none => []
    | some ts =>
      if slottype_matches_session ts.slot_type ts.duration s.session_type then
        rooms.flatMap (fun rp =>
          if compatible_room_by_session s.session_type rp.2.rtype then
            if decide (rp.2.capacity < s.students) then []
            else
              (chosenIds allow_fallback instructors s.course).map (fun iid =>
                ⟨t, rp.1, iid, decide (s.course ∈ qualsOf instructors iid),
                  prefFlag instructors (preferAssistant s.session_type) iid⟩)
          else [])
      else [])

/-- Processing of one session entry by `build_vars_domains`: skipped
(`none`) when the student count is nonpositive or the course is missing
from the course table, otherwise the variable together with its domain. -/
def buildOne (allow_fallback : Bool) (courses : List String)
    (instructors : List (String × InstrInfo)) (rooms : List (String × RoomInfo))
    (timeslots : List String) (timeslot_info : List (String × SlotInfo))
    (s : Session) : Option (LectureVar × List Cand) :=
  if s.students ≤ 0 then none
  else if s.course ∈ courses then
    some (mkVar s, domainFor allow_fallback instructors rooms timeslots timeslot_info s)
  else none

/-- `build_vars_domains`: the variable list paired with its domains.  The
Python version returns a list of variables plus a dict keyed by the (fresh,
identity-hashed) variable objects; the association is modelled by pairing.
`courses` is the key set of the course table (the only use of the table in
this function is the membership test `cid not in courses`). -/
def build_vars_domains (allow_fallback : Bool) (courses : List String)
    (instructors : List (String × InstrInfo)) (rooms : List (String × RoomInfo))
    (timeslots : List String) (timeslot_info : List (String × SlotInfo))
    (sessions : List Session) : List (LectureVar × List Cand) :=
  sessions.filterMap
    (buildOne allow_fallback courses instructors rooms timeslots timeslot_info)

/-- `room_capacity_diff` of the solver: distance between the candidate
room's capacity (9999 when the room id is unknown) and the student count. -/
def capDiff (rooms : List (String × RoomInfo)) (students : Int) (c : Cand) :
    Nat :=
  ((((dlookup rooms c.room).map RoomInfo.capacity).getD 9999) - students).natAbs

/-- Strict version of the candidate sort key
`(not pref_flag, room_capacity_diff)`: preferred candidates first, then
smaller capacity distance.  Python `sorted` is a stable sort by this key;
it is modelled below by `stableSort` with this strict order. -/
def ltCand (rooms : List (String × RoomInfo)) (students : Int) (a b : Cand) :
    Bool :=
  (a.pref && !b.pref)
    || ((a.pref == b.pref)
        && decide (capDiff rooms students a < capDiff rooms students b))

/-- Strict version of the session sort key `(-students, len(domain))`:
larger student counts first, then smaller domains. -/
def ltVar (p q : LectureVar × List Cand) : Bool :=
  decide (-p.1.students < -q.1.students)
    || ((p.1.students == q.1.students) && decide (p.2.length < q.2.length))

/-- Stable insertion: the new element goes after every element strictly
smaller in the key order, hence before equal-key elements that occur later
in the original list. -/
def stableInsert (lt : α → α → Bool) (x : α) : List α → List α
  | [] => [x]
  | y :: ys => if lt y x then y :: stableInsert lt x ys else x :: y :: ys

/-- Stable insertion sort, the model of Python's (stable) `sorted` with a
key function, expressed through the strict key order `lt`. -/
def stableSort (lt : α → α → Bool) : List α → List α
  | [] => []
  | x :: xs => stableInsert lt x (stableSort lt xs)

/-- The conflict scan of the solver against one usage set:
`t == used_t or t in overlap_map.get(used_t, set())` for some used slot. -/
def clash (ov : String → List String) (t : String) (used : List String) :
    Bool :=
  used.any (fun u => t == u || decide (t ∈ ov u))

/-- Mutable state of `solve_timetable`: committed assignments, failed
variables, and the three usage indices (room, instructor and section each
map to the set of committed timeslot ids). -/
structure SolveSt where
  assigned : List (LectureVar × Cand)
  failed : List LectureVar
  usedR : String → List String
  usedI : String → List String
  usedS : String → List String

/-- A candidate is feasible iff none of the three usage indices holds a
slot equal to or overlapping the candidate's slot. -/
def feasible (ov : String → List String) (st : SolveSt) (sect : String)
    (c : Cand) : Bool :=
  !(clash ov c.slot (st.usedR c.room)) && !(clash ov c.slot (st.usedI c.instr))
    && !(clash ov c.slot (st.usedS sect))

/-- The candidate scan of the solver: the first feasible option of the
sorted domain, if any. -/
def firstFeasible (ov : String → List String) (st : SolveSt) (sect : String) :
    List Cand → Option Cand
  | [] => none
  | c :: cs =>
      if feasible ov st sect c then some c else firstFeasible ov st sect cs

/-- Initial solver state: nothing assigned, nothing failed, empty usage. -/
def initSt : SolveSt :=
  ⟨[], [], fun _ => [], fun _ => [], fun _ => []⟩

/-- One iteration of the solver loop over a session variable: an empty
domain fails immediately; otherwise the first feasible candidate of the
sorted domain is committed and all three usage indices record its slot, and
if no candidate is feasible the variable is recorded as failed. -/
def solveStep (ov : String → List String) (rooms : List (String × RoomInfo))
    (st : SolveSt) (p : LectureVar × List Cand) : SolveSt :=
  if p.2.isEmpty then { st with failed := st.failed ++ [p.1] }
  else
    match firstFeasible ov st p.1.sect
        (stableSort (ltCand rooms p.1.students) p.2) with
    | some c =>
        { assigned := st.assigned ++ [(p.1, c)]
          failed := st.failed
          usedR := addTo st.usedR c.room c.slot
          usedI := addTo st.usedI c.instr c.slot
          usedS := addTo st.usedS p.1.sect c.slot }
    | none => { st with failed := st.failed ++ [p.1] }

/-- `solve_timetable`: sessions are processed in the stable order of the
key `(-students, len(domain))`; the result is the assignment list and the
failure list.  The `timeslot_info` parameter is accepted but unused, as in
the source. -/
def solve_timetable (vars : List (LectureVar × List Cand))
    (timeslot_info : List (String × SlotInfo)) (ov : String → List String)
    (rooms : List (String × RoomInfo)) :
    List (LectureVar × Cand) × List LectureVar :=
  let final := (stableSort ltVar vars).foldl (solveStep ov rooms) initSt
  (final.assigned, final.failed)

/-- Symmetry of an id-to-slot-list map seen as a relation. -/
def SymOv (m : String → List String) : Prop :=
  ∀ x y, x ∈ m y ↔ y ∈ m x

/-- Irreflexivity of an id-to-slot-list map seen as a relation. -/
def IrrOv (m : String → List String) : Prop :=
  ∀ x, x ∉ m x

/-- No-clash relation between two committed assignments: if they share a
room, an instructor, or a section, their slots are distinct and unrelated
by the overlap map in either direction. -/
def OkPair (ov : String → List String) (p q : LectureVar × Cand) : Prop :=
  (p.2.room = q.2.room ∨ p.2.instr = q.2.instr ∨ p.1.sect = q.1.sect) →
    p.2.slot ≠ q.2.slot ∧ p.2.slot ∉ ov q.2.slot ∧ q.2.slot ∉ ov p.2.slot

/-- Invariant of the solver loop: committed assignments are pairwise
clash-free, and each usage index contains the slot of every assignment
using that resource. -/
def SolveInv (ov : String → List String) (st : SolveSt) : Prop :=
  List.Pairwise (OkPair ov) st.assigned ∧
  ∀ p ∈ st.assigned, p.2.slot ∈ st.usedR p.2.room ∧
    p.2.slot ∈ st.usedI p.2.instr ∧ p.2.slot ∈ st.usedS p.1.sect

/-- Sample timeslot-info table: every slot has an empty day label and the
minute range 0 to 60. -/
def sampleInfoEmptyDay : String → SlotInfo := fun _ => ⟨[], 0, 60, 60, []⟩

/-- Sample timeslot-info table: every slot is monday, 0 to 60. -/
def sampleInfoMon : String → SlotInfo := fun _ => ⟨"mon".toList, 0, 60, 60, []⟩

/-- Sample timeslot-info table with two overlapping monday slots whose day
labels differ only in case. -/
def sampleInfoDays : String → SlotInfo := fun t =>
  if t = "A" then ⟨"mon".toList, 540, 600, 60, []⟩
  else ⟨"Mon".toList, 570, 630, 60, []⟩

/-- Sample timeslot-info function with slot T1 on monday and all other
slots on tuesday, same minute range. -/
def sampleOvInfo2 : String → SlotInfo := fun t =>
  if t = "T1" then ⟨"mon".toList, 540, 600, 60, []⟩
  else ⟨"tue".toList, 540, 600, 60, []⟩

/-- Sample instructor table: one instructor qualified for course C1. -/
def sampleInstrs : List (String × InstrInfo) :=
  [("I1", ⟨"Ada".toList, ["C1"], "professor".toList⟩)]

/-- Sample instructor table: one instructor with no qualifications. -/
def noQualInstrs : List (String × InstrInfo) :=
  [("I1", ⟨"Ada".toList, [], "professor".toList⟩)]

/-- Sample room table: one classroom of capacity 40. -/
def sampleRooms : List (String × RoomInfo) :=
  [("R1", ⟨"classroom".toList, 40⟩)]

/-- The variable-domain pair produced for `sampleSession` when the only
instructor is unqualified and the fallback is enabled. -/
def noQualPair : LectureVar × List Cand :=
  (⟨"C1", "S1", "Lecture".toList, 30⟩, [⟨"T1", "R1", "I1", false, false⟩])

/-- Sample timeslot-info association list: one monday slot of 60 minutes. -/
def sampleTinfo : List (String × SlotInfo) :=
  [("T1", ⟨"mon".toList, 540, 600, 60, []⟩)]

/-- Sample session: a lecture of course C1 for section S1, 30 students. -/
def sampleSession : Session := ⟨"S1", "C1", "Lecture".toList, 30⟩

/-- Sample session whose course C2 is not in the course table. -/
def badSession : Session := ⟨"S1", "C2", "Lecture".toList, 30⟩

/-- Sample solver input: two lecture variables of the same section with
one candidate each, sharing room R1 but on different-day slots. -/
def sampleVars : List (LectureVar × List Cand) :=
  [(⟨"C1", "S1", "Lecture".toList, 30⟩, [⟨"T1", "R1", "I1", true, false⟩]),
   (⟨"C2", "S1", "Lecture".toList, 30⟩, [⟨"T2", "R1", "I2", true, false⟩])]

/-! ### Lemmas about the Overlap Index -/

lemma mem_addTo {m : String → List String} {k v x y : String} :
    y ∈ addTo m k v x ↔ (x = k ∧ y = v) ∨ y ∈ m x := by
  unfold addTo
  by_cases h : x = k
  · subst h; simp
  · simp [h]

lemma mem_insert2 {m : String → List String} {a b x y : String} :
    y ∈ insert2 m a b x ↔ y ∈ m x ∨ (x = a ∧ y = b) ∨ (x = b ∧ y = a) := by
  unfold insert2
  rw [mem_addTo, mem_addTo]
  tauto

lemma symOv_insert2 {m : String → List String} {a b : String} (h : SymOv m) :
    SymOv (insert2 m a b) := by
  intro x y
  rw [mem_insert2, mem_insert2, h x y]
  tauto

lemma symOv_inner (info : String → SlotInfo) (a : String) :
    ∀ (l : List String) (m : String → List String), SymOv m →
      SymOv (overlapInner info a l m) := by
  intro l
  induction l with
  | nil => intro m h; exact h
  | cons b bs ih =>
    intro m h
    simp only [overlapInner]
    apply ih
    by_cases hc : overlapCond (info a) (info b) = true
    · rw [if_pos hc]; exact symOv_insert2 h
    · rw [if_neg hc]; exact h

lemma symOv_outer (info : String → SlotInfo) :
    ∀ (ts : List String) (m : String → List String), SymOv m →
      SymOv (overlapOuter info ts m) := by
  intro ts
  induction ts with
  | nil => intro m h; exact h
  | cons a rest ih =>
    intro m h
    exact ih _ (symOv_inner info a rest m h)

/-- The built Overlap Index is symmetric, for every input. -/
lemma buildOverlap_symm (ts : List String) (info : String → SlotInfo) :
    SymOv (buildOverlap ts info) := by
  apply symOv_outer
  intro x y
  simp

lemma irrOv_insert2 {m : String → List String} {a b : String} (hab : a ≠ b)
    (h : IrrOv m) : IrrOv (insert2 m a b) := by
  intro x hx
  rw [mem_insert2] at hx
  rcases hx with hx | ⟨h1, h2⟩ | ⟨h1, h2⟩
  · exact h x hx
  · exact hab (h1.symm.trans h2)
  · exact hab (h2.symm.trans h1)

lemma irrOv_inner (info : String → SlotInfo) (a : String) :
    ∀ (l : List String) (m : String → List String), a ∉ l → IrrOv m →
      IrrOv (overlapInner info a l m) := by
  intro l
  induction l with
  | nil => intro m _ h; exact h
  | cons b bs ih =>
    intro m hal h
    simp only [overlapInner]
    have hab : a ≠ b := fun he => hal (he ▸ List.mem_cons_self a bs)
    have habs : a ∉ bs := fun he => hal (List.mem_cons_of_mem b he)
    refine ih _ habs ?_
    by_cases hc : overlapCond (info a) (info b) = true
    · rw [if_pos hc]; exact irrOv_insert2 hab h
    · rw [if_neg hc]; exact h

lemma irrOv_outer (info : String → SlotInfo) :
    ∀ (ts : List String) (m : String → List String), ts.Nodup → IrrOv m →
      IrrOv (overlapOuter info ts m) := by
  intro ts
  induction ts with
  | nil => intro m _ h; exact h
  | cons a rest ih =>
    intro m hnd h
    rw [List.nodup_cons] at hnd
    exact ih _ hnd.2 (irrOv_inner info a rest m hnd.1 h)

/-- The built Overlap Index is irreflexive whenever the timeslot ids in the
input list are pairwise distinct. -/
lemma buildOverlap_irrefl (ts : List String) (info : String → SlotInfo)
    (hnd : ts.Nodup) : IrrOv (buildOverlap ts info) := by
  apply irrOv_outer info ts _ hnd
  intro x hx
  simp at hx

/-- Membership after the inner loop: either already present, or contributed
by a pair of slot `a` with some slot of the scanned tail. -/
lemma mem_inner_iff (info : String → SlotInfo) (a : String) :
    ∀ (l : List String) (m : String → List String) (x y : String),
      y ∈ overlapInner info a l m x ↔
        y ∈ m x ∨ ∃ c ∈ l, overlapCond (info a) (info c) = true ∧
          ((x = a ∧ y = c) ∨ (x = c ∧ y = a)) := by
  intro l
  induction l with
  | nil => intro m x y; simp [overlapInner]
  | cons b bs ih =>
    intro m x y
    simp only [overlapInner]
    rw [ih]
    by_cases hc : overlapCond (info a) (info b) = true
    · rw [if_pos hc, mem_insert2]
      constructor
      · rintro ((hm | ⟨h1, h2⟩ | ⟨h1, h2⟩) | ⟨c, hcbs, hcond, hd⟩)
        · exact Or.inl hm
        · exact Or.inr ⟨b, List.mem_cons_self b bs, hc, Or.inl ⟨h1, h2⟩⟩
        · exact Or.inr ⟨b, List.mem_cons_self b bs, hc, Or.inr ⟨h1, h2⟩⟩
        · exact Or.inr ⟨c, List.mem_cons_of_mem b hcbs, hcond, hd⟩
      · rintro (hm | ⟨c, hcbs, hcond, hd⟩)
        · exact Or.inl (Or.inl hm)
        · rcases List.mem_cons.mp hcbs with rfl | hcbs2
          · rcases hd with ⟨rfl, rfl⟩ | ⟨rfl, rfl⟩
            · exact Or.inl (Or.inr (Or.inl ⟨rfl, rfl⟩))
            · exact Or.inl (Or.inr (Or.inr ⟨rfl, rfl⟩))
          · exact Or.inr ⟨c, hcbs2, hcond, hd⟩
    · rw [if_neg hc]
      constructor
      · rintro (hm | ⟨c, hcbs, hcond, hd⟩)
        · exact Or.inl hm
        · exact Or.inr ⟨c, List.mem_cons_of_mem b hcbs, hcond, hd⟩
      · rintro (hm | ⟨c, hcbs, hcond, hd⟩)
        · exact Or.inl hm
        · rcases List.mem_cons.mp hcbs with rfl | hcbs2
          · exact absurd hcond hc
          · exact Or.inr ⟨c, hcbs2, hcond, hd⟩

lemma mem_inner_mono (info : String → SlotInfo) (a : String)
    (l : List String) (m : String → List String) (x y : String)
    (h : y ∈ m x) : y ∈ overlapInner info a l m x :=
  (mem_inner_iff info a l m x y).mpr (Or.inl h)

lemma mem_outer_mono (info : String → SlotInfo) :
    ∀ (ts : List String) (m : String → List String) (x y : String),
      y ∈ m x → y ∈ overlapOuter info ts m x := by
  intro ts
  induction ts with
  | nil => intro m x y h; exact h
  | cons a rest ih =>
    intro m x y h
    exact ih _ x y (mem_inner_mono info a rest m x y h)

lemma isEmpty_eq_false_iff (l : List Char) : l.isEmpty = false ↔ l ≠ [] := by
  cases l <;> simp

/-- Propositional unfolding of the overlap condition. -/
lemma overlapCond_iff (p q : SlotInfo) :
    overlapCond p q = true ↔
      (p.day ≠ [] ∧ q.day ≠ [] ∧ lowerStr p.day = lowerStr q.day ∧
        p.start_min < q.end_min ∧ q.start_min < p.end_min) := by
  simp only [overlapCond, Bool.and_eq_true, Bool.not_eq_true',
    isEmpty_eq_false_iff, decide_eq_true_eq, beq_iff_eq, and_assoc]

/-- The overlap condition is symmetric. -/
lemma overlapCond_symm {p q : SlotInfo} (h : overlapCond p q = true) :
    overlapCond q p = true := by
  rw [overlapCond_iff] at h ⊢
  obtain ⟨h1, h2, h3, h4, h5⟩ := h
  exact ⟨h2, h1, h3.symm, h5, h4⟩

/-- Completeness of the pairwise loop: two distinct ids both occurring in
the list whose infos satisfy the overlap condition end up related. -/
lemma mem_outer_complete (info : String → SlotInfo) :
    ∀ (ts : List String) (m : String → List String) (a b : String),
      a ≠ b → a ∈ ts → b ∈ ts → overlapCond (info a) (info b) = true →
      b ∈ overlapOuter info ts m a := by
  intro ts
  induction ts with
  | nil => intro m a b _ ha _ _; exact absurd ha (List.not_mem_nil a)
  | cons hd rest ih =>
    intro m a b hne ha hb hcond
    simp only [overlapOuter]
    rcases List.mem_cons.mp ha with rfl | ha2
    · rcases List.mem_cons.mp hb with rfl | hb2
      · exact absurd rfl hne
      · apply mem_outer_mono
        exact (mem_inner_iff info a rest m a b).mpr
          (Or.inr ⟨b, hb2, hcond, Or.inl ⟨rfl, rfl⟩⟩)
    · rcases List.mem_cons.mp hb with rfl | hb2
      · apply mem_outer_mono
        exact (mem_inner_iff info b rest m a b).mpr
          (Or.inr ⟨a, ha2, overlapCond_symm hcond, Or.inr ⟨rfl, rfl⟩⟩)
      · exact ih _ a b hne ha2 hb2 hcond

/-- Soundness of the pairwise loop: a relation between `a` and `b` in the
output is either already in the input map or justified by the overlap
condition. -/
lemma mem_outer_sound (info : String → SlotInfo) :
    ∀ (ts : List String) (m : String → List String) (a b : String),
      b ∈ overlapOuter info ts m a →
      b ∈ m a ∨ overlapCond (info a) (info b) = true := by
  intro ts
  induction ts with
  | nil => intro m a b h; exact Or.inl h
  | cons hd rest ih =>
    intro m a b h
    simp only [overlapOuter] at h
    rcases ih _ a b h with h1 | h2
    · rw [mem_inner_iff] at h1
      rcases h1 with hm | ⟨c, _, hcond, ⟨rfl, rfl⟩ | ⟨rfl, rfl⟩⟩
      · exact Or.inl hm
      · exact Or.inr hcond
      · exact Or.inr (overlapCond_symm hcond)
    · exact Or.inr h2

/-! ### Claims C2 and C3: the Overlap Index -/

/-- C2 (amended): for distinct timeslot ids `a` and `b` given to the
Overlap Index builder, `b` is in `overlap(a)` iff BOTH day labels are
nonempty, the days agree case-insensitively, and the half-open minute
ranges intersect.  The original claim omits the nonemptiness of the day
labels, which the counterexample below shows to be required. -/
theorem spec_C2_overlap_characterization :
    ∀ (ts : List String) (info : String → SlotInfo) (a b : String),
      a ∈ ts → b ∈ ts → a ≠ b →
      (b ∈ buildOverlap ts info a ↔
        ((info a).day ≠ [] ∧ (info b).day ≠ [] ∧
          lowerStr (info a).day = lowerStr (info b).day ∧
          (info a).start_min < (info b).end_min ∧
          (info b).start_min < (info a).end_min)) := by
  intro ts info a b ha hb hne
  rw [← overlapCond_iff]
  constructor
  · intro h
    rcases mem_outer_sound info ts _ a b h with h1 | h2
    · exact absurd h1 (List.not_mem_nil b)
    · exact h2
  · intro h
    exact mem_outer_complete info ts _ a b hne ha hb h

/-- C2 counterexample: two distinct slots with empty day labels and the
same (intersecting) minute range 0 to 60 have the same day
case-insensitively and intersecting ranges, yet the built Overlap Index
does not relate them, because the source additionally requires both day
strings to be truthy (nonempty). -/
theorem spec_C2_counterexample :
    ("B" ∉ buildOverlap ["A", "B"] sampleInfoEmptyDay "A") ∧
    lowerStr (sampleInfoEmptyDay "A").day = lowerStr (sampleInfoEmptyDay "B").day ∧
    (sampleInfoEmptyDay "A").start_min < (sampleInfoEmptyDay "B").end_min ∧
    (sampleInfoEmptyDay "B").start_min < (sampleInfoEmptyDay "A").end_min ∧
    ("A" : String) ≠ "B" := by
  decide

/-- C2 witness: the characterization instantiated on two overlapping monday
slots whose day labels differ only in case. -/
theorem spec_C2_witness :
    "B" ∈ buildOverlap ["A", "B"] sampleInfoDays "A" ↔
      ((sampleInfoDays "A").day ≠ [] ∧ (sampleInfoDays "B").day ≠ [] ∧
        lowerStr (sampleInfoDays "A").day = lowerStr (sampleInfoDays "B").day ∧
        (sampleInfoDays "A").start_min < (sampleInfoDays "B").end_min ∧
        (sampleInfoDays "B").start_min < (sampleInfoDays "A").end_min) :=
  spec_C2_overlap_characterization ["A", "B"] sampleInfoDays "A" "B"
    (by decide) (by decide) (by decide)

/-- C3 (amended): the Overlap Index built from any list of timeslots is
symmetric; it is irreflexive provided the timeslot ids in the list are
pairwise distinct.  The original claim asserts irreflexivity for every
list, which fails when an id occurs twice (see the counterexample). -/
theorem spec_C3_overlap_symm_irrefl :
    ∀ (ts : List String) (info : String → SlotInfo),
      (∀ x y, x ∈ buildOverlap ts info y ↔ y ∈ buildOverlap ts info x) ∧
      (ts.Nodup → ∀ x, x ∉ buildOverlap ts info x) := by
  intro ts info
  exact ⟨buildOverlap_symm ts info, fun hnd => buildOverlap_irrefl ts info hnd⟩

/-- C3 counterexample: feeding the same timeslot id twice makes the pair
loop compare the id with itself through the info table, so the slot ends up
in its own overlap set and the index is not irreflexive. -/
theorem spec_C3_counterexample :
    ¬ (∀ (ts : List String) (info : String → SlotInfo) (x : String),
        x ∉ buildOverlap ts info x) :=
  fun h => h ["T1", "T1"] sampleInfoMon "T1" (by decide)

/-- C3 witness: symmetry and irreflexivity instantiated on a duplicate-free
two-slot list. -/
theorem spec_C3_witness :
    ("B" ∈ buildOverlap ["A", "B"] sampleInfoMon "A" ↔
      "A" ∈ buildOverlap ["A", "B"] sampleInfoMon "B") ∧
    "A" ∉ buildOverlap ["A", "B"] sampleInfoMon "A" :=
  ⟨(spec_C3_overlap_symm_irrefl ["A", "B"] sampleInfoMon).1 "B" "A",
   (spec_C3_overlap_symm_irrefl ["A", "B"] sampleInfoMon).2 (by decide) "A"⟩

/-! ### Claims C5 and C7: slot-type and room-type rules -/

/-- C5: a short-tutorial session accepts a slot iff its lowercased type tag
contains "short" or its duration is at most 79; a long-tutorial session
accepts a slot iff the tag contains "long" or the duration is at least 80;
every other session type (in particular lecture and lab) accepts any slot. -/
theorem spec_C5_slot_type_policy :
    ∀ (slot_type : List Char) (d : Int) (session_type : List Char),
      (isShortTutType session_type = true →
        (slottype_matches_session slot_type d session_type = true ↔
          (containsStr "short".toList (lowerStr slot_type) = true ∨ d ≤ 79))) ∧
      (isShortTutType session_type = false → isLongTutType session_type = true →
        (slottype_matches_session slot_type d session_type = true ↔
          (containsStr "long".toList (lowerStr slot_type) = true ∨ 80 ≤ d))) ∧
      (isShortTutType session_type = false → isLongTutType session_type = false →
        slottype_matches_session slot_type d session_type = true) := by
  intro sl d st
  refine ⟨fun h1 => ?_, fun h1 h2 => ?_, fun h1 h2 => ?_⟩
  · unfold slottype_matches_session
    rw [if_pos h1]
    cases hsl : lowerStr sl with
    | nil =>
      simp only [MAX_TUTORIAL_DURATION, decide_eq_true_eq]
      simp
      intro hcs
      exact absurd hcs (by decide)
    | cons c cs =>
      by_cases hc : containsStr ("short".toList) (c :: cs) = true
      · simp [hc, MAX_TUTORIAL_DURATION]
      · simp [hc, MAX_TUTORIAL_DURATION, decide_eq_true_eq]
  · have h1' : ¬ (isShortTutType st = true) := by simp [h1]
    unfold slottype_matches_session
    rw [if_neg h1', if_pos h2]
    cases hsl : lowerStr sl with
    | nil =>
      simp only [MIN_LECTURE_DURATION, decide_eq_true_eq]
      simp
      intro hcs
      exact absurd hcs (by decide)
    | cons c cs =>
      by_cases hc : containsStr ("long".toList) (c :: cs) = true
      · simp [hc, MIN_LECTURE_DURATION]
      · simp [hc, MIN_LECTURE_DURATION, decide_eq_true_eq]
  · have h1' : ¬ (isShortTutType st = true) := by simp [h1]
    have h2' : ¬ (isLongTutType st = true) := by simp [h2]
    unfold slottype_matches_session
    rw [if_neg h1', if_neg h2']

/-- C5 witness: the short-tutorial rule instantiated on untagged slots of
50 and 90 minutes: the 50-minute slot satisfies the right-hand side, the
90-minute slot does not, matching the scenario of the specification. -/
theorem spec_C5_witness :
    (slottype_matches_session [] 50 ("Short Tutorial".toList) = true ↔
      (containsStr "short".toList (lowerStr []) = true ∨ (50 : Int) ≤ 79)) ∧
    (slottype_matches_session [] 90 ("Short Tutorial".toList) = true ↔
      (containsStr "short".toList (lowerStr []) = true ∨ (90 : Int) ≤ 79)) :=
  ⟨(spec_C5_slot_type_policy [] 50 ("Short Tutorial".toList)).1 (by decide),
   (spec_C5_slot_type_policy [] 90 ("Short Tutorial".toList)).1 (by decide)⟩

/-- C7: the room-compatibility check is independent of the session type:
for every session type it accepts a room iff the lowercased room type
contains one of the five recognized tokens. -/
theorem spec_C7_room_compat_permissive :
    ∀ (session_type room_type : List Char),
      compatible_room_by_session session_type room_type
        = recognizedRoomType room_type := by
  intro st rt
  unfold compatible_room_by_session recognizedRoomType
  generalize containsStr "lab".toList (lowerStr st) = s1
  generalize containsStr "lecture".toList (lowerStr st) = s2
  generalize containsStr "tutorial".toList (lowerStr st) = s3
  generalize containsStr "classroom".toList (lowerStr rt) = r1
  generalize containsStr "hall".toList (lowerStr rt) = r2
  generalize containsStr "theater".toList (lowerStr rt) = r3
  generalize containsStr "lab".toList (lowerStr rt) = r4
  generalize containsStr "physics".toList (lowerStr rt) = r5
  cases s1 <;> cases s2 <;> cases s3 <;> cases r1 <;> cases r2 <;> cases r3
    <;> cases r4 <;> cases r5 <;> rfl

/-! ### Lemmas about the Domain Builder -/

lemma dlookup_mem {α : Type} {l : List (String × α)} {k : String} {v : α}
    (h : dlookup l k = some v) : (k, v) ∈ l := by
  unfold dlookup at h
  obtain ⟨p, hp, hpv⟩ := Option.map_eq_some'.mp h
  have h1 : p.1 = k := by simpa using List.find?_some hp
  have h2 : p ∈ l := List.mem_of_find?_eq_some hp
  have h3 : p = (k, v) := by
    obtain ⟨a, b⟩ := p
    simp only [Prod.mk.injEq]
    exact ⟨h1, hpv⟩
  rw [h3] at h2
  exact h2

lemma mem_build_iff {af : Bool} {cs : List String}
    {instrs : List (String × InstrInfo)} {rooms : List (String × RoomInfo)}
    {ts : List String} {tinfo : List (String × SlotInfo)}
    {sessions : List Session} {p : LectureVar × List Cand} :
    p ∈ build_vars_domains af cs instrs rooms ts tinfo sessions ↔
      ∃ s, s ∈ sessions ∧ buildOne af cs instrs rooms ts tinfo s = some p := by
  simp [build_vars_domains, List.mem_filterMap]

lemma buildOne_eq_some {af : Bool} {cs : List String}
    {instrs : List (String × InstrInfo)} {rooms : List (String × RoomInfo)}
    {ts : List String} {tinfo : List (String × SlotInfo)} {s : Session}
    {p : LectureVar × List Cand}
    (h : buildOne af cs instrs rooms ts tinfo s = some p) :
    0 < s.students ∧ s.course ∈ cs ∧
      p = (mkVar s, domainFor af instrs rooms ts tinfo s) := by
  unfold buildOne at h
  by_cases h1 : s.students ≤ 0
  · rw [if_pos h1] at h; exact Option.noConfusion h
  · rw [if_neg h1] at h
    by_cases h2 : s.course ∈ cs
    · rw [if_pos h2] at h
      refine ⟨by omega, h2, ?_⟩
      exact (Option.some_inj.mp h).symm
    · rw [if_neg h2] at h; exact Option.noConfusion h

/-- Full characterization of domain membership: a candidate is in the
domain iff it arises from a timeslot passing the slot-type filter, a room
passing the compatibility and capacity filters, and a chosen instructor. -/
lemma mem_domainFor_iff {af : Bool} {instrs : List (String × InstrInfo)}
    {rooms : List (String × RoomInfo)} {ts : List String}
    {tinfo : List (String × SlotInfo)} {s : Session} {c : Cand} :
    c ∈ domainFor af instrs rooms ts tinfo s ↔
      ∃ t ∈ ts, ∃ si, dlookup tinfo t = some si ∧
        slottype_matches_session si.slot_type si.duration s.session_type = true ∧
        ∃ rp ∈ rooms, compatible_room_by_session s.session_type rp.2.rtype = true ∧
          ¬ (rp.2.capacity < s.students) ∧
          ∃ iid ∈ chosenIds af instrs s.course,
            c = ⟨t, rp.1, iid, decide (s.course ∈ qualsOf instrs iid),
              prefFlag instrs (preferAssistant s.session_type) iid⟩ := by
  constructor
  · intro h
    simp only [domainFor] at h
    obtain ⟨t, ht, hc⟩ := List.mem_flatMap.mp h
    cases hdl : dlookup tinfo t with
    | none => rw [hdl] at hc; exact absurd hc (List.not_mem_nil c)
    | some si =>
      rw [hdl] at hc
      dsimp only at hc
      by_cases hst : slottype_matches_session si.slot_type si.duration s.session_type = true
      · rw [if_pos hst] at hc
        obtain ⟨rp, hrp, hc2⟩ := List.mem_flatMap.mp hc
        by_cases hcr : compatible_room_by_session s.session_type rp.2.rtype = true
        · rw [if_pos hcr] at hc2
          by_cases hcap : rp.2.capacity < s.students
          · rw [if_pos (by simpa using hcap)] at hc2
            exact absurd hc2 (List.not_mem_nil c)
          · rw [if_neg (by simpa using hcap)] at hc2
            obtain ⟨iid, hiid, hceq⟩ := List.mem_map.mp hc2
            exact ⟨t, ht, si, hdl, hst, rp, hrp, hcr, hcap, iid, hiid, hceq.symm⟩
        · rw [if_neg hcr] at hc2; exact absurd hc2 (List.not_mem_nil c)
      · rw [if_neg hst] at hc; exact absurd hc (List.not_mem_nil c)
  · rintro ⟨t, ht, si, hdl, hst, rp, hrp, hcr, hcap, iid, hiid, rfl⟩
    simp only [domainFor]
    refine List.mem_flatMap.mpr ⟨t, ht, ?_⟩
    rw [hdl]
    dsimp only
    rw [if_pos hst]
    refine List.mem_flatMap.mpr ⟨rp, hrp, ?_⟩
    rw [if_pos hcr, if_neg (by simpa using hcap)]
    exact List.mem_map.mpr ⟨iid, hiid, rfl⟩

lemma mem_qualifiedIds {instrs : List (String × InstrInfo)} {cid iid : String} :
    iid ∈ qualifiedIds instrs cid ↔
      ∃ e ∈ instrs, e.1 = iid ∧ cid ∈ e.2.quals := by
  unfold qualifiedIds
  simp only [List.mem_map, List.mem_filter, decide_eq_true_eq]
  apply exists_congr
  intro e
  tauto

lemma qualifiedIds_eq_nil {instrs : List (String × InstrInfo)} {cid : String}
    (h : ∀ e ∈ instrs, cid ∉ e.2.quals) : qualifiedIds instrs cid = [] := by
  unfold qualifiedIds
  rw [List.map_eq_nil_iff, List.filter_eq_nil_iff]
  intro e he
  simp [h e he]

lemma qualFlag_false {instrs : List (String × InstrInfo)} {cid iid : String}
    (h : ∀ e ∈ instrs, cid ∉ e.2.quals) :
    decide (cid ∈ qualsOf instrs iid) = false := by
  cases hdl : dlookup instrs iid with
  | none => simp [qualsOf, hdl]
  | some v =>
    have hin := h (iid, v) (dlookup_mem hdl)
    simp [qualsOf, hdl, hin]

/-! ### Claims C4 and C6: the Domain Builder -/

/-- C4: every candidate emitted into a session's domain satisfies the
slot-type rule (through the timeslot-info entry the builder looked up), a
room of the room table passing the compatibility check with capacity at
least the student count (the minimum under the default relaxation 0), and
the qualification-or-fallback rule for its instructor. -/
theorem spec_C4_domain_soundness :
    ∀ (af : Bool) (cs : List String) (instrs : List (String × InstrInfo))
      (rooms : List (String × RoomInfo)) (ts : List String)
      (tinfo : List (String × SlotInfo)) (sessions : List Session),
      ∀ p ∈ build_vars_domains af cs instrs rooms ts tinfo sessions,
      ∀ c ∈ p.2,
        (∃ si, dlookup tinfo c.slot = some si ∧
          slottype_matches_session si.slot_type si.duration p.1.session_type = true) ∧
        (∃ rp ∈ rooms, rp.1 = c.room ∧
          compatible_room_by_session p.1.session_type rp.2.rtype = true ∧
          p.1.students ≤ rp.2.capacity) ∧
        ((∃ e ∈ instrs, e.1 = c.instr ∧ p.1.course ∈ e.2.quals) ∨
          (af = true ∧ (∀ e ∈ instrs, p.1.course ∉ e.2.quals) ∧
            c.instr ∈ instrs.map Prod.fst)) := by
  intro af cs instrs rooms ts tinfo sessions p hp c hc
  obtain ⟨s, hs, hone⟩ := mem_build_iff.mp hp
  obtain ⟨hstud, hcs, rfl⟩ := buildOne_eq_some hone
  obtain ⟨t, ht, si, hdl, hst, rp, hrp, hcr, hcap, iid, hiid, rfl⟩ :=
    mem_domainFor_iff.mp hc
  refine ⟨⟨si, hdl, hst⟩, ⟨rp, hrp, rfl, hcr, Int.not_lt.mp hcap⟩, ?_⟩
  unfold chosenIds at hiid
  by_cases hq : ((qualifiedIds instrs s.course).isEmpty && af) = true
  · rw [if_pos hq] at hiid
    rw [Bool.and_eq_true] at hq
    obtain ⟨hqe, haf⟩ := hq
    have hnil : qualifiedIds instrs s.course = [] := by
      rwa [List.isEmpty_iff] at hqe
    have hall : ∀ e ∈ instrs, s.course ∉ e.2.quals := by
      intro e he hmem
      have hq1 : e.1 ∈ qualifiedIds instrs s.course :=
        mem_qualifiedIds.mpr ⟨e, he, rfl, hmem⟩
      rw [hnil] at hq1
      exact absurd hq1 (List.not_mem_nil e.1)
    exact Or.inr ⟨haf, hall, hiid⟩
  · rw [if_neg hq] at hiid
    obtain ⟨e, he, he1, he2⟩ := mem_qualifiedIds.mp hiid
    exact Or.inl ⟨e, he, he1, he2⟩

/-- C4 witness: the soundness statement instantiated on a one-session,
one-room, one-slot, one-instructor input whose domain is the single
candidate (T1, R1, I1, qualified, not preferred). -/
theorem spec_C4_witness :
    (∃ si, dlookup sampleTinfo "T1" = some si ∧
      slottype_matches_session si.slot_type si.duration ("Lecture".toList) = true) ∧
    (∃ rp ∈ sampleRooms, rp.1 = "R1" ∧
      compatible_room_by_session ("Lecture".toList) rp.2.rtype = true ∧
      (30 : Int) ≤ rp.2.capacity) ∧
    ((∃ e ∈ sampleInstrs, e.1 = "I1" ∧ "C1" ∈ e.2.quals) ∨
      ((true : Bool) = true ∧ (∀ e ∈ sampleInstrs, "C1" ∉ e.2.quals) ∧
        "I1" ∈ sampleInstrs.map Prod.fst)) :=
  spec_C4_domain_soundness true ["C1"] sampleInstrs sampleRooms ["T1"]
    sampleTinfo [sampleSession]
    (⟨"C1", "S1", "Lecture".toList, 30⟩, [⟨"T1", "R1", "I1", true, false⟩])
    (by decide) ⟨"T1", "R1", "I1", true, false⟩ (by decide)

/-- C6 (amended): for a session whose course has zero qualified
instructors, a disabled fallback gives the empty domain; with the fallback
enabled every candidate records is-qualified false, and whenever the
domain is nonempty (i.e. some slot-room pair passes the filters) it
contains a candidate for every instructor.  The original claim promises a
candidate for every instructor unconditionally, which fails when no
slot-room pair passes (see the counterexample with an empty room table). -/
theorem spec_C6_unqualified_fallback :
    ∀ (af : Bool) (cs : List String) (instrs : List (String × InstrInfo))
      (rooms : List (String × RoomInfo)) (ts : List String)
      (tinfo : List (String × SlotInfo)) (sessions : List Session),
      ∀ p ∈ build_vars_domains af cs instrs rooms ts tinfo sessions,
      (∀ e ∈ instrs, p.1.course ∉ e.2.quals) →
      (af = false → p.2 = []) ∧
      (∀ c ∈ p.2, c.qual = false) ∧
      (p.2 ≠ [] → ∀ e ∈ instrs, ∃ c ∈ p.2, c.instr = e.1 ∧ c.qual = false) := by
  intro af cs instrs rooms ts tinfo sessions p hp hq
  obtain ⟨s, hs, hone⟩ := mem_build_iff.mp hp
  obtain ⟨hstud, hcs, rfl⟩ := buildOne_eq_some hone
  have hqs : ∀ e ∈ instrs, s.course ∉ e.2.quals := hq
  have hnil : qualifiedIds instrs s.course = [] := qualifiedIds_eq_nil hqs
  refine ⟨?_, ?_, ?_⟩
  · intro haf
    apply List.eq_nil_iff_forall_not_mem.mpr
    intro c hc
    obtain ⟨t, ht, si, hdl, hst, rp, hrp, hcr, hcap, iid, hiid, _⟩ :=
      mem_domainFor_iff.mp hc
    unfold chosenIds at hiid
    rw [hnil, haf] at hiid
    simp at hiid
  · intro c hc
    obtain ⟨t, ht, si, hdl, hst, rp, hrp, hcr, hcap, iid, hiid, rfl⟩ :=
      mem_domainFor_iff.mp hc
    exact qualFlag_false hqs
  · intro hne e he
    obtain ⟨c0, hc0⟩ := List.exists_mem_of_ne_nil _ hne
    obtain ⟨t, ht, si, hdl, hst, rp, hrp, hcr, hcap, iid, hiid, _⟩ :=
      mem_domainFor_iff.mp hc0
    unfold chosenIds at hiid
    rw [hnil] at hiid
    by_cases haf : af = true
    · refine ⟨⟨t, rp.1, e.1, decide (s.course ∈ qualsOf instrs e.1),
        prefFlag instrs (preferAssistant s.session_type) e.1⟩, ?_,
        rfl, qualFlag_false hqs⟩
      apply mem_domainFor_iff.mpr
      refine ⟨t, ht, si, hdl, hst, rp, hrp, hcr, hcap, e.1, ?_, rfl⟩
      unfold chosenIds
      rw [hnil, haf, if_pos (by decide)]
      exact List.mem_map_of_mem Prod.fst he
    · have haf2 : af = false := by revert haf; cases af <;> simp
      rw [haf2] at hiid
      simp at hiid

/-- C6 counterexample: fallback enabled, the session's course has zero
qualified instructors and the instructor table is nonempty, yet with an
empty room table the produced domain is empty, so it contains no candidate
at all, in particular none for instructor I1. -/
theorem spec_C6_counterexample :
    (build_vars_domains true ["C1"] noQualInstrs [] ["T1"] sampleTinfo
      [sampleSession]).map Prod.snd = [[]] ∧
    (∀ e ∈ noQualInstrs, "C1" ∉ e.2.quals) ∧ noQualInstrs ≠ [] := by
  decide

/-- C6 witness: the amended statement instantiated with the fallback
enabled and a room available: the domain is the single candidate
(T1, R1, I1) with is-qualified false. -/
theorem spec_C6_witness :
    ((true : Bool) = false → noQualPair.2 = []) ∧
    (∀ c ∈ noQualPair.2, c.qual = false) ∧
    (noQualPair.2 ≠ [] → ∀ e ∈ noQualInstrs,
      ∃ c ∈ noQualPair.2, c.instr = e.1 ∧ c.qual = false) :=
  spec_C6_unqualified_fallback true ["C1"] noQualInstrs sampleRooms ["T1"]
    sampleTinfo [sampleSession] noQualPair (by decide) (by decide)

/-! ### Lemmas about the stable sort and the solver -/

lemma stableInsert_perm (lt : α → α → Bool) (x : α) :
    ∀ l : List α, (stableInsert lt x l).Perm (x :: l) := by
  intro l
  induction l with
  | nil => exact List.Perm.refl [x]
  | cons y ys ih =>
    simp only [stableInsert]
    by_cases h : lt y x = true
    · rw [if_pos h]
      exact (ih.cons y).trans (List.Perm.swap x y ys)
    · rw [if_neg h]

lemma stableSort_perm (lt : α → α → Bool) :
    ∀ l : List α, (stableSort lt l).Perm l := by
  intro l
  induction l with
  | nil => exact List.Perm.refl []
  | cons x xs ih =>
    exact (stableInsert_perm lt x (stableSort lt xs)).trans (ih.cons x)

lemma stableInsert_pairwise {lt : α → α → Bool}
    (hasym : ∀ a b, lt a b = true → lt b a = false)
    (hntr : ∀ a b c, lt b a = false → lt c b = false → lt c a = false)
    (x : α) :
    ∀ l : List α, List.Pairwise (fun a b => lt b a = false) l →
      List.Pairwise (fun a b => lt b a = false) (stableInsert lt x l) := by
  intro l
  induction l with
  | nil =>
    intro _
    exact List.pairwise_singleton _ x
  | cons y ys ih =>
    intro hp
    rw [List.pairwise_cons] at hp
    obtain ⟨hy, hys⟩ := hp
    simp only [stableInsert]
    by_cases h : lt y x = true
    · rw [if_pos h]
      rw [List.pairwise_cons]
      refine ⟨?_, ih hys⟩
      intro z hz
      rcases List.mem_cons.mp ((stableInsert_perm lt x ys).subset hz) with rfl | hz2
      · exact hasym y z h
      · exact hy z hz2
    · rw [if_neg h]
      have h' : lt y x = false := by revert h; cases lt y x <;> simp
      rw [List.pairwise_cons]
      constructor
      · intro z hz
        rcases List.mem_cons.mp hz with rfl | hz2
        · exact h'
        · exact hntr x y z h' (hy z hz2)
      · rw [List.pairwise_cons]
        exact ⟨hy, hys⟩

lemma stableSort_pairwise {lt : α → α → Bool}
    (hasym : ∀ a b, lt a b = true → lt b a = false)
    (hntr : ∀ a b c, lt b a = false → lt c b = false → lt c a = false) :
    ∀ l : List α, List.Pairwise (fun a b => lt b a = false) (stableSort lt l) := by
  intro l
  induction l with
  | nil => exact List.Pairwise.nil
  | cons x xs ih => exact stableInsert_pairwise hasym hntr x _ ih

lemma ltVar_true_iff {p q : LectureVar × List Cand} :
    ltVar p q = true ↔
      (q.1.students < p.1.students ∨
        (p.1.students = q.1.students ∧ p.2.length < q.2.length)) := by
  simp only [ltVar, Bool.or_eq_true, Bool.and_eq_true, decide_eq_true_eq,
    beq_iff_eq]
  omega

lemma ltVar_asym : ∀ p q, ltVar p q = true → ltVar q p = false := by
  intro p q h
  rw [ltVar_true_iff] at h
  rw [Bool.eq_false_iff]
  intro h2
  rw [ltVar_true_iff] at h2
  omega

lemma ltVar_negtrans :
    ∀ p q r, ltVar q p = false → ltVar r q = false → ltVar r p = false := by
  intro p q r h1 h2
  rw [Bool.eq_false_iff]
  intro h3
  rw [ltVar_true_iff] at h3
  have g1 : ¬ (p.1.students < q.1.students ∨
      (q.1.students = p.1.students ∧ q.2.length < p.2.length)) :=
    fun hx => by rw [ltVar_true_iff.mpr hx] at h1; exact Bool.noConfusion h1
  have g2 : ¬ (q.1.students < r.1.students ∨
      (r.1.students = q.1.students ∧ r.2.length < q.2.length)) :=
    fun hx => by rw [ltVar_true_iff.mpr hx] at h2; exact Bool.noConfusion h2
  omega

lemma ltCand_true_iff {rooms : List (String × RoomInfo)} {students : Int}
    {a b : Cand} :
    ltCand rooms students a b = true ↔
      ((a.pref = true ∧ b.pref = false) ∨
        (a.pref = b.pref ∧ capDiff rooms students a < capDiff rooms students b)) := by
  simp only [ltCand, Bool.or_eq_true, Bool.and_eq_true, decide_eq_true_eq,
    beq_iff_eq, Bool.not_eq_true']

lemma ltCand_asym {rooms : List (String × RoomInfo)} {students : Int} :
    ∀ a b, ltCand rooms students a b = true →
      ltCand rooms students b a = false := by
  intro a b h
  rw [ltCand_true_iff] at h
  rw [Bool.eq_false_iff]
  intro h2
  rw [ltCand_true_iff] at h2
  rcases h with ⟨ha, hb⟩ | ⟨hab, hd⟩ <;> rcases h2 with ⟨ha2, hb2⟩ | ⟨hab2, hd2⟩
  · simp_all
  · simp_all
  · simp_all
  · omega

lemma ltCand_negtrans {rooms : List (String × RoomInfo)} {students : Int} :
    ∀ a b c, ltCand rooms students b a = false →
      ltCand rooms students c b = false → ltCand rooms students c a = false := by
  intro a b c h1 h2
  rw [Bool.eq_false_iff]
  intro h3
  rw [ltCand_true_iff] at h3
  have g1 : ¬ ((b.pref = true ∧ a.pref = false) ∨
      (b.pref = a.pref ∧ capDiff rooms students b < capDiff rooms students a)) :=
    fun hx => by rw [ltCand_true_iff.mpr hx] at h1; exact Bool.noConfusion h1
  have g2 : ¬ ((c.pref = true ∧ b.pref = false) ∨
      (c.pref = b.pref ∧ capDiff rooms students c < capDiff rooms students b)) :=
    fun hx => by rw [ltCand_true_iff.mpr hx] at h2; exact Bool.noConfusion h2
  rcases h3 with h3a | h3b <;>
    cases ha : a.pref <;> cases hb : b.pref <;> cases hc : c.pref <;>
      simp_all <;> omega

lemma firstFeasible_eq_find (ov : String → List String) (st : SolveSt)
    (sect : String) :
    ∀ l : List Cand, firstFeasible ov st sect l = l.find? (feasible ov st sect) := by
  intro l
  induction l with
  | nil => rfl
  | cons c cs ih =>
    by_cases h : feasible ov st sect c = true
    · rw [List.find?_cons_of_pos _ h]
      simp only [firstFeasible]
      rw [if_pos h]
    · rw [List.find?_cons_of_neg _ (by simpa using h)]
      simp only [firstFeasible]
      rw [if_neg h]
      exact ih

lemma firstFeasible_some {ov : String → List String} {st : SolveSt}
    {sect : String} :
    ∀ {l : List Cand} {c : Cand}, firstFeasible ov st sect l = some c →
      feasible ov st sect c = true := by
  intro l
  induction l with
  | nil => intro c h; exact Option.noConfusion h
  | cons d ds ih =>
    intro c h
    simp only [firstFeasible] at h
    by_cases hf : feasible ov st sect d = true
    · rw [if_pos hf] at h
      exact Option.some_inj.mp h ▸ hf
    · rw [if_neg hf] at h
      exact ih h

lemma clash_eq_false_iff {ov : String → List String} {t : String}
    {used : List String} :
    clash ov t used = false ↔ ∀ u ∈ used, t ≠ u ∧ t ∉ ov u := by
  unfold clash
  rw [List.any_eq_false]
  constructor
  · intro h u hu
    have h2 := h u hu
    simp only [Bool.or_eq_true, decide_eq_true_eq, beq_iff_eq, not_or] at h2
    exact h2
  · intro h u hu
    simp only [Bool.or_eq_true, decide_eq_true_eq, beq_iff_eq, not_or]
    exact h u hu

lemma feasible_eq_true_iff {ov : String → List String} {st : SolveSt}
    {sect : String} {c : Cand} :
    feasible ov st sect c = true ↔
      (∀ u ∈ st.usedR c.room, c.slot ≠ u ∧ c.slot ∉ ov u) ∧
      (∀ u ∈ st.usedI c.instr, c.slot ≠ u ∧ c.slot ∉ ov u) ∧
      (∀ u ∈ st.usedS sect, c.slot ≠ u ∧ c.slot ∉ ov u) := by
  simp only [feasible, Bool.and_eq_true, Bool.not_eq_true', clash_eq_false_iff]
  rw [and_assoc]

lemma addTo_mono {m : String → List String} {k v x y : String} (h : y ∈ m x) :
    y ∈ addTo m k v x := by
  unfold addTo
  by_cases hx : x = k
  · rw [if_pos hx]; exact List.mem_cons_of_mem v h
  · rw [if_neg hx]; exact h

lemma addTo_self {m : String → List String} {k v : String} :
    v ∈ addTo m k v k := by
  unfold addTo
  rw [if_pos rfl]
  exact List.mem_cons_self v (m k)

lemma solveStep_empty {ov : String → List String}
    {rooms : List (String × RoomInfo)} {st : SolveSt}
    {p : LectureVar × List Cand} (he : p.2.isEmpty = true) :
    solveStep ov rooms st p = { st with failed := st.failed ++ [p.1] } := by
  unfold solveStep
  rw [if_pos he]

lemma solveStep_fail {ov : String → List String}
    {rooms : List (String × RoomInfo)} {st : SolveSt}
    {p : LectureVar × List Cand} (he : ¬ p.2.isEmpty = true)
    (hf : firstFeasible ov st p.1.sect
      (stableSort (ltCand rooms p.1.students) p.2) = none) :
    solveStep ov rooms st p = { st with failed := st.failed ++ [p.1] } := by
  unfold solveStep
  rw [if_neg he, hf]

lemma solveStep_commit {ov : String → List String}
    {rooms : List (String × RoomInfo)} {st : SolveSt}
    {p : LectureVar × List Cand} {c : Cand} (he : ¬ p.2.isEmpty = true)
    (hf : firstFeasible ov st p.1.sect
      (stableSort (ltCand rooms p.1.students) p.2) = some c) :
    solveStep ov rooms st p =
      { assigned := st.assigned ++ [(p.1, c)], failed := st.failed,
        usedR := addTo st.usedR c.room c.slot,
        usedI := addTo st.usedI c.instr c.slot,
        usedS := addTo st.usedS p.1.sect c.slot } := by
  unfold solveStep
  rw [if_neg he, hf]

lemma inv_init {ov : String → List String} : SolveInv ov initSt := by
  constructor
  · exact List.Pairwise.nil
  · intro p hp
    exact absurd hp (List.not_mem_nil p)

lemma inv_step {ov : String → List String} (hsym : SymOv ov)
    (rooms : List (String × RoomInfo)) (st : SolveSt)
    (p : LectureVar × List Cand) (h : SolveInv ov st) :
    SolveInv ov (solveStep ov rooms st p) := by
  by_cases he : p.2.isEmpty = true
  · rw [solveStep_empty he]
    exact h
  · cases hf : firstFeasible ov st p.1.sect
        (stableSort (ltCand rooms p.1.students) p.2) with
    | none =>
      rw [solveStep_fail he hf]
      exact h
    | some c =>
      rw [solveStep_commit he hf]
      have hfe := firstFeasible_some hf
      rw [feasible_eq_true_iff] at hfe
      obtain ⟨hR, hI, hS⟩ := hfe
      constructor
      · rw [List.pairwise_append]
        refine ⟨h.1, List.pairwise_singleton _ _, ?_⟩
        intro q hq r hr
        rw [List.mem_singleton] at hr
        subst hr
        intro hshare
        obtain ⟨hqR, hqI, hqS⟩ := h.2 q hq
        rcases hshare with hs1 | hs2 | hs3
        · obtain ⟨hne, hnov⟩ := hR q.2.slot (hs1 ▸ hqR)
          exact ⟨hne.symm, fun hmem => hnov ((hsym q.2.slot c.slot).mp hmem), hnov⟩
        · obtain ⟨hne, hnov⟩ := hI q.2.slot (hs2 ▸ hqI)
          exact ⟨hne.symm, fun hmem => hnov ((hsym q.2.slot c.slot).mp hmem), hnov⟩
        · obtain ⟨hne, hnov⟩ := hS q.2.slot (hs3 ▸ hqS)
          exact ⟨hne.symm, fun hmem => hnov ((hsym q.2.slot c.slot).mp hmem), hnov⟩
      · intro q hq
        rcases List.mem_append.mp hq with hq1 | hq2
        · obtain ⟨h1, h2, h3⟩ := h.2 q hq1
          exact ⟨addTo_mono h1, addTo_mono h2, addTo_mono h3⟩
        · rw [List.mem_singleton] at hq2
          subst hq2
          exact ⟨addTo_self, addTo_self, addTo_self⟩

lemma inv_fold {ov : String → List String} (hsym : SymOv ov)
    (rooms : List (String × RoomInfo)) :
    ∀ (l : List (LectureVar × List Cand)) (st : SolveSt), SolveInv ov st →
      SolveInv ov (l.foldl (solveStep ov rooms) st) := by
  intro l
  induction l with
  | nil => intro st h; exact h
  | cons p ps ih =>
    intro st h
    exact ih _ (inv_step hsym rooms st p h)

/-- The committed assignments of a run are pairwise clash-free whenever the
overlap map is symmetric. -/
lemma solve_pairwise {ov : String → List String} (hsym : SymOv ov)
    (vars : List (LectureVar × List Cand)) (tinfo : List (String × SlotInfo))
    (rooms : List (String × RoomInfo)) :
    List.Pairwise (OkPair ov) (solve_timetable vars tinfo ov rooms).1 :=
  (inv_fold hsym rooms (stableSort ltVar vars) initSt inv_init).1

lemma step_partition (ov : String → List String)
    (rooms : List (String × RoomInfo)) (st : SolveSt)
    (p : LectureVar × List Cand) :
    (((solveStep ov rooms st p).assigned.map Prod.fst) ++
      (solveStep ov rooms st p).failed).Perm
      ((st.assigned.map Prod.fst ++ st.failed) ++ [p.1]) := by
  by_cases he : p.2.isEmpty = true
  · rw [solveStep_empty he, ← List.append_assoc]
  · cases hf : firstFeasible ov st p.1.sect
        (stableSort (ltCand rooms p.1.students) p.2) with
    | none =>
      rw [solveStep_fail he hf, ← List.append_assoc]
    | some c =>
      rw [solveStep_commit he hf]
      simp only [List.map_append, List.map_cons, List.map_nil]
      rw [List.append_assoc, List.append_assoc]
      exact List.perm_append_comm.append_left _

lemma fold_partition (ov : String → List String)
    (rooms : List (String × RoomInfo)) :
    ∀ (l : List (LectureVar × List Cand)) (st : SolveSt),
      (((l.foldl (solveStep ov rooms) st).assigned.map Prod.fst) ++
        (l.foldl (solveStep ov rooms) st).failed).Perm
        ((st.assigned.map Prod.fst ++ st.failed) ++ l.map Prod.fst) := by
  intro l
  induction l with
  | nil =>
    intro st
    simp only [List.foldl_nil, List.map_nil, List.append_nil]
    exact List.Perm.refl _
  | cons p ps ih =>
    intro st
    have h2 := (step_partition ov rooms st p).append_right (ps.map Prod.fst)
    have h1 := ih (solveStep ov rooms st p)
    simp only [List.append_assoc, List.singleton_append, List.map_cons] at h1 h2 ⊢
    exact h1.trans h2

/-- Every session variable given to the solver ends up exactly once across
the assignment list and the failure list. -/
lemma solve_partition (vars : List (LectureVar × List Cand))
    (tinfo : List (String × SlotInfo)) (ov : String → List String)
    (rooms : List (String × RoomInfo)) :
    (((solve_timetable vars tinfo ov rooms).1.map Prod.fst) ++
      (solve_timetable vars tinfo ov rooms).2).Perm (vars.map Prod.fst) := by
  have h := fold_partition ov rooms (stableSort ltVar vars) initSt
  simp only [initSt] at h
  simp only [List.map_nil, List.nil_append] at h
  exact h.trans ((stableSort_perm ltVar vars).map Prod.fst)

/-! ### Claims C1, C8, C9 and C10: the Assignment Engine -/

/-- C1: in the assignment returned by the solver run against a built
Overlap Index, any two entries at distinct positions that share a room, an
instructor, or a section have distinct slots that are unrelated by the
index in either direction. -/
theorem spec_C1_no_clash :
    ∀ (ts : List String) (info : String → SlotInfo)
      (vars : List (LectureVar × List Cand)) (tinfo : List (String × SlotInfo))
      (rooms : List (String × RoomInfo)) (i j : Nat) (p q : LectureVar × Cand),
      i ≠ j →
      (solve_timetable vars tinfo (buildOverlap ts info) rooms).1.get? i = some p →
      (solve_timetable vars tinfo (buildOverlap ts info) rooms).1.get? j = some q →
      (p.2.room = q.2.room ∨ p.2.instr = q.2.instr ∨ p.1.sect = q.1.sect) →
      p.2.slot ≠ q.2.slot ∧ p.2.slot ∉ buildOverlap ts info q.2.slot ∧
        q.2.slot ∉ buildOverlap ts info p.2.slot := by
  intro ts info vars tinfo rooms i j p q hij hi hj hshare
  have hsym : SymOv (buildOverlap ts info) := buildOverlap_symm ts info
  have hpw := solve_pairwise hsym vars tinfo rooms
  obtain ⟨hilt, hig⟩ := List.get?_eq_some.mp hi
  obtain ⟨hjlt, hjg⟩ := List.get?_eq_some.mp hj
  rcases Nat.lt_or_ge i j with hlt | hge
  · have hok := List.pairwise_iff_get.mp hpw ⟨i, hilt⟩ ⟨j, hjlt⟩ hlt
    rw [hig, hjg] at hok
    exact hok hshare
  · have hlt2 : j < i := by omega
    have hok := List.pairwise_iff_get.mp hpw ⟨j, hjlt⟩ ⟨i, hilt⟩ hlt2
    rw [hig, hjg] at hok
    obtain ⟨h1, h2, h3⟩ := hok (by
      rcases hshare with h | h | h
      exacts [Or.inl h.symm, Or.inr (Or.inl h.symm), Or.inr (Or.inr h.symm)])
    exact ⟨h1.symm, h3, h2⟩

/-- C1 witness: two same-section sessions sharing room R1 get committed to
the two different-day slots T1 and T2, which are unrelated by the built
index. -/
theorem spec_C1_witness :
    ("T1" : String) ≠ "T2" ∧
    ("T1" : String) ∉ buildOverlap ["T1", "T2"] sampleOvInfo2 "T2" ∧
    ("T2" : String) ∉ buildOverlap ["T1", "T2"] sampleOvInfo2 "T1" :=
  spec_C1_no_clash ["T1", "T2"] sampleOvInfo2 sampleVars [] [] 0 1
    (⟨"C1", "S1", "Lecture".toList, 30⟩, ⟨"T1", "R1", "I1", true, false⟩)
    (⟨"C2", "S1", "Lecture".toList, 30⟩, ⟨"T2", "R1", "I2", true, false⟩)
    (by decide) (by decide) (by decide) (Or.inl rfl)

/-- C8: the solver processes sessions in the stable order of the key
(descending students, ascending domain size); within a session it orders
candidates preferred-first then by ascending capacity distance, commits
exactly the first feasible candidate of that order, and records its slot in
all three usage indices at once; with no feasible candidate the variable is
recorded as failed. -/
theorem spec_C8_greedy_order :
    ∀ (vars : List (LectureVar × List Cand)) (tinfo : List (String × SlotInfo))
      (ov : String → List String) (rooms : List (String × RoomInfo))
      (st : SolveSt) (v : LectureVar) (dom : List Cand),
      (stableSort ltVar vars).Perm vars ∧
      List.Pairwise (fun pq1 pq2 : LectureVar × List Cand =>
        pq2.1.students < pq1.1.students ∨
          (pq1.1.students = pq2.1.students ∧ pq1.2.length ≤ pq2.2.length))
        (stableSort ltVar vars) ∧
      solve_timetable vars tinfo ov rooms =
        (((stableSort ltVar vars).foldl (solveStep ov rooms) initSt).assigned,
         ((stableSort ltVar vars).foldl (solveStep ov rooms) initSt).failed) ∧
      (stableSort (ltCand rooms v.students) dom).Perm dom ∧
      List.Pairwise (fun a b : Cand =>
        (a.pref = true ∧ b.pref = false) ∨
          (a.pref = b.pref ∧
            capDiff rooms v.students a ≤ capDiff rooms v.students b))
        (stableSort (ltCand rooms v.students) dom) ∧
      solveStep ov rooms st (v, dom) =
        (match (stableSort (ltCand rooms v.students) dom).find?
            (feasible ov st v.sect) with
         | some c =>
             { assigned := st.assigned ++ [(v, c)], failed := st.failed,
               usedR := addTo st.usedR c.room c.slot,
               usedI := addTo st.usedI c.instr c.slot,
               usedS := addTo st.usedS v.sect c.slot }
         | none => { st with failed := st.failed ++ [v] }) := by
  intro vars tinfo ov rooms st v dom
  refine ⟨stableSort_perm ltVar vars, ?_, rfl, stableSort_perm _ dom, ?_, ?_⟩
  · refine (stableSort_pairwise ltVar_asym ltVar_negtrans vars).imp ?_
    intro a b h
    have g1 : ¬ (a.1.students < b.1.students ∨
        (b.1.students = a.1.students ∧ b.2.length < a.2.length)) :=
      fun hx => by rw [ltVar_true_iff.mpr hx] at h; exact Bool.noConfusion h
    omega
  · refine (stableSort_pairwise ltCand_asym ltCand_negtrans dom).imp ?_
    intro a b h
    have g1 : ¬ ((b.pref = true ∧ a.pref = false) ∨
        (b.pref = a.pref ∧
          capDiff rooms v.students b < capDiff rooms v.students a)) :=
      fun hx => by rw [ltCand_true_iff.mpr hx] at h; exact Bool.noConfusion h
    cases ha : a.pref <;> cases hb : b.pref <;> simp_all
  · cases dom with
    | nil => rfl
    | cons c0 cs =>
      unfold solveStep
      rw [if_neg (by simp)]
      rw [firstFeasible_eq_find]

/-- C9: the multiset of variables in the assignment map plus the failure
list is exactly the multiset of input variables: the run always completes
and every session ends in exactly one of the two outcomes. -/
theorem spec_C9_outcome_totality :
    ∀ (vars : List (LectureVar × List Cand)) (tinfo : List (String × SlotInfo))
      (ov : String → List String) (rooms : List (String × RoomInfo)),
      (((solve_timetable vars tinfo ov rooms).1.map Prod.fst) ++
        (solve_timetable vars tinfo ov rooms).2).Perm (vars.map Prod.fst) :=
  fun vars tinfo ov rooms => solve_partition vars tinfo ov rooms

/-- C10: a session with nonpositive student count or a course missing from
the course table produces no variable and no domain, and its variable
appears neither in the assignment map nor in the failure list of the
subsequent solve. -/
theorem spec_C10_data_integrity :
    ∀ (af : Bool) (cs : List String) (instrs : List (String × InstrInfo))
      (rooms : List (String × RoomInfo)) (ts : List String)
      (tinfo : List (String × SlotInfo)) (sessions : List Session)
      (ov : String → List String) (s : Session),
      s ∈ sessions → (s.students ≤ 0 ∨ s.course ∉ cs) →
      (∀ p ∈ build_vars_domains af cs instrs rooms ts tinfo sessions,
        p.1 ≠ mkVar s) ∧
      (∀ e ∈ (solve_timetable
          (build_vars_domains af cs instrs rooms ts tinfo sessions)
          tinfo ov rooms).1, e.1 ≠ mkVar s) ∧
      (∀ v ∈ (solve_timetable
          (build_vars_domains af cs instrs rooms ts tinfo sessions)
          tinfo ov rooms).2, v ≠ mkVar s) := by
  intro af cs instrs rooms ts tinfo sessions ov s hs hbad
  have hmain : ∀ v ∈ (build_vars_domains af cs instrs rooms ts tinfo
      sessions).map Prod.fst, v ≠ mkVar s := by
    intro v hv
    obtain ⟨p, hp, rfl⟩ := List.mem_map.mp hv
    obtain ⟨s2, hs2, hone⟩ := mem_build_iff.mp hp
    obtain ⟨hstud, hcs, rfl⟩ := buildOne_eq_some hone
    intro heq
    have h4 : s2.course = s.course ∧ s2.students = s.students := by
      have h5 : mkVar s2 = mkVar s := heq
      unfold mkVar at h5
      rw [LectureVar.mk.injEq] at h5
      exact ⟨h5.1, h5.2.2.2⟩
    obtain ⟨hc4, hs4⟩ := h4
    rcases hbad with hb | hb
    · omega
    · exact hb (hc4 ▸ hcs)
  refine ⟨?_, ?_, ?_⟩
  · intro p hp
    exact hmain p.1 (List.mem_map_of_mem Prod.fst hp)
  · intro e he
    have h1 := List.mem_map_of_mem Prod.fst he
    have h2 := (solve_partition
      (build_vars_domains af cs instrs rooms ts tinfo sessions)
      tinfo ov rooms).subset (List.mem_append.mpr (Or.inl h1))
    exact hmain e.1 h2
  · intro v hv
    have h2 := (solve_partition
      (build_vars_domains af cs instrs rooms ts tinfo sessions)
      tinfo ov rooms).subset (List.mem_append.mpr (Or.inr hv))
    exact hmain v h2

/-- C10 witness: a session whose course C2 is missing from the course table
is excluded from the build and from both solver outcomes. -/
theorem spec_C10_witness :
    (∀ p ∈ build_vars_domains true ["C1"] sampleInstrs sampleRooms ["T1"]
        sampleTinfo [badSession], p.1 ≠ mkVar badSession) ∧
    (∀ e ∈ (solve_timetable (build_vars_domains true ["C1"] sampleInstrs
        sampleRooms ["T1"] sampleTinfo [badSession]) sampleTinfo
        (fun _ => []) sampleRooms).1, e.1 ≠ mkVar badSession) ∧
    (∀ v ∈ (solve_timetable (build_vars_domains true ["C1"] sampleInstrs
        sampleRooms ["T1"] sampleTinfo [badSession]) sampleTinfo
        (fun _ => []) sampleRooms).2, v ≠ mkVar badSession) :=
  spec_C10_data_integrity true ["C1"] sampleInstrs sampleRooms ["T1"]
    sampleTinfo [badSession] (fun _ => []) badSession (by decide) (by decide)
